import Mathlib

set_option linter.unusedVariables false

namespace Sigtest

/-- Test state of a case, from sigtest.h: typedef enum { PASS, FAIL, SKIP } TestState. -/
inductive TestState
  | PASS
  | FAIL
  | SKIP
deriving DecidableEq, Repr

/-- Result slot of a test case (sigtest.c, st_case_s.info.result): a state plus an
optional message (a NULL char pointer is modelled as none). -/
structure TestResult where
  state : TestState
  message : Option String
deriving DecidableEq, Repr

/-- View of the global current_set as the assertion library sees it: only the
current field (st_set_s.current, the currently executing test case) matters to
set_test_context, and only that case's result slot is written. -/
structure SetSlot where
  current : Option TestResult
deriving DecidableEq, Repr

/-- Global mutable context read by set_test_context (sigtest.c): the static
current_set pointer, possibly NULL. -/
structure AssertCtx where
  current_set : Option SetSlot
deriving DecidableEq, Repr

/-- Embedding of set_test_context (sigtest.c lines 364-376).  Writes the result
state and a copy of the message into the currently executing case and, for a
non-PASS result, performs the single longjmp back to the runner.  The returned
Bool is true exactly when the longjmp (abrupt unwind) fires.  When there is no
current set or no current case, nothing is written and no jump occurs. -/
def set_test_context (result : TestState) (message : Option String) (ctx : AssertCtx) :
    AssertCtx × Bool :=
  match ctx.current_set with
  | some s =>
    match s.current with
    | some _ => (⟨some ⟨some ⟨result, message⟩⟩⟩, result ≠ TestState.PASS)
    | none => (ctx, false)
  | none => (ctx, false)

/-- Fail message MESSAGE_TRUE_FAIL from sigtest.c. -/
def MESSAGE_TRUE_FAIL : String := "Expected true, but was false"

/-- Fail message MESSAGE_FALSE_FAIL from sigtest.c. -/
def MESSAGE_FALSE_FAIL : String := "Expected false, but was true"

/-- Appends the user-supplied formatted message to a base failure message the way
every assertion in sigtest.c does: user_msg = fmt ? format_msg(fmt, args) : "";
when user_msg is nonempty the assertion emits base + newline + four spaces + dash
+ user_msg into a 256-byte buffer (truncating to 255 characters).  The fmt
argument models the already-formatted varargs text; none models a NULL fmt. -/
def with_user_msg (base : String) (fmt : Option String) : String :=
  match fmt with
  | some m => if m = "" then base else (base ++ "\n    - " ++ m).take 255
  | none => base

/-- Typed argument pair of assert_are_equal / assert_are_not_equal.  In C both
take two void pointers plus an AssertType tag telling how to dereference them;
the tag and the two read values are modelled together as one constructor per
AssertType (int, long, float, double, char, ptr, string).  C float and double
values are modelled as exact rationals (every finite binary32/binary64 value is
a rational, and comparison of finite values is exact rational comparison);
pointers by their address. -/
inductive EqArgs
  | int (expected actual : ℤ)
  | long (expected actual : ℤ)
  | float (expected actual : ℚ)
  | double (expected actual : ℚ)
  | char (expected actual : Char)
  | ptr (expected actual : ℕ)
  | str (expected actual : String)
deriving DecidableEq, Repr

/-- FLT_EPSILON of float.h: 2^-23, the machine epsilon of binary32. -/
def FLT_EPSILON : ℚ := 1 / 2 ^ 23

/-- DBL_EPSILON of float.h: 2^-52, the machine epsilon of binary64. -/
def DBL_EPSILON : ℚ := 1 / 2 ^ 52

/-- Left-pads a natural number with zeros to five digits, for the fractional
part of a "%.5f" rendering. -/
def pad5 (n : ℕ) : String :=
  let s := toString n
  String.mk (List.replicate (5 - s.length) '0') ++ s

/-- Models the snprintf "%.5f" rendering used by gen_equals_fail_msg for FLOAT
and DOUBLE values: sign, integer part, and five rounded decimals (rounding half
away from zero). -/
def format_fixed5 (q : ℚ) : String :=
  let sign := if q < 0 then "-" else ""
  let aq := |q|
  let scaled := aq * 100000
  let n : ℤ := ⌊scaled⌋ + (if (1 : ℚ) / 2 ≤ scaled - ⌊scaled⌋ then 1 else 0)
  sign ++ toString (n / 100000) ++ "." ++ pad5 (n % 100000).toNat

/-- Renders one side of an equality-assertion message the way
gen_equals_fail_msg (sigtest.c) does per AssertType: "%d" for int, "%.5f" for
float/double, "%c" for char, hexadecimal for "%p", and a copy for strings.  The
C code writes into a 20-byte buffer, so every rendering is truncated to 19
characters. -/
def render_eq_side (s : String) : String := s.take 19

/-- Builds the failure message of assert_are_equal / assert_are_not_equal
(sigtest.c gen_equals_fail_msg): MESSAGE_EQUAL_FAIL = "Expected %s, but was %s"
over the rendered values, then a nonempty user message appended on an indented
line, within a 256-byte buffer. -/
def gen_equals_fail_msg (exp_str act_str : String) (fmt : Option String) : String :=
  with_user_msg ("Expected " ++ render_eq_side exp_str ++ ", but was " ++ render_eq_side act_str) fmt

/-- Renders the two arguments of an equality assertion per their AssertType, as
gen_equals_fail_msg does. -/
def render_eq_args : EqArgs → String × String
  | .int e a => (toString e, toString a)
  | .long e a => (toString e, toString a)
  | .float e a => (format_fixed5 e, format_fixed5 a)
  | .double e a => (format_fixed5 e, format_fixed5 a)
  | .char e a => (String.mk [e], String.mk [a])
  | .ptr e a => (String.mk (Nat.toDigits 16 e), String.mk (Nat.toDigits 16 a))
  | .str e a => (e, a)

/-- Outcome an assertion computes before handing it to set_test_context: the
TestState together with the optional message. -/
abbrev AssertOutcome := TestState × Option String

/-- One invocation of an operation of the public Assert interface (sigtest.h
st_assert_i, implemented in sigtest.c).  Conditions are modelled by their truth
value, pointers by their nullness (isNull/isNotNull) and the fmt varargs by the
already-formatted optional text. -/
inductive AssertCall
  | isTrue (condition : Bool) (fmt : Option String)
  | isFalse (condition : Bool) (fmt : Option String)
  | isNull (ptr_is_null : Bool) (fmt : Option String)
  | isNotNull (ptr_is_null : Bool) (fmt : Option String)
  | areEqual (args : EqArgs) (fmt : Option String)
  | areNotEqual (args : EqArgs) (fmt : Option String)
  | floatWithin (value min max : ℚ) (fmt : Option String)
  | stringEqual (expected actual : String) (case_sensitive : Bool) (fmt : Option String)
  | throw (fmt : Option String)
  | fail (fmt : Option String)
  | skip (fmt : Option String)

/-- Embedding of assert_are_equal (sigtest.c lines 473-549): compares the two
values per the AssertType switch (floats within FLT_EPSILON, doubles within
DBL_EPSILON, STRING always fails directing to stringEqual). -/
def assert_are_equal (args : EqArgs) (fmt : Option String) : AssertOutcome :=
  match args with
  | .int e a =>
    if e ≠ a then (.FAIL, some (gen_equals_fail_msg (toString e) (toString a) fmt)) else (.PASS, none)
  | .long e a =>
    if e ≠ a then (.FAIL, some (gen_equals_fail_msg (toString e) (toString a) fmt)) else (.PASS, none)
  | .float e a =>
    if |e - a| > FLT_EPSILON then
      (.FAIL, some (gen_equals_fail_msg (format_fixed5 e) (format_fixed5 a) fmt))
    else (.PASS, none)
  | .double e a =>
    if |e - a| > DBL_EPSILON then
      (.FAIL, some (gen_equals_fail_msg (format_fixed5 e) (format_fixed5 a) fmt))
    else (.PASS, none)
  | .char e a =>
    if e ≠ a then
      (.FAIL, some (gen_equals_fail_msg (String.mk [e]) (String.mk [a]) fmt))
    else (.PASS, none)
  | .ptr e a =>
    if e ≠ a then
      (.FAIL, some (gen_equals_fail_msg (String.mk (Nat.toDigits 16 e)) (String.mk (Nat.toDigits 16 a)) fmt))
    else (.PASS, none)
  | .str _ _ => (.FAIL, some "Use Assert.stringEqual for string comparison")

/-- Embedding of assert_are_not_equal (sigtest.c lines 551-619).  Note the C
switch has no LONG case, so LONG arguments take the default branch and fail with
"Unsupported type for comparison". -/
def assert_are_not_equal (args : EqArgs) (fmt : Option String) : AssertOutcome :=
  match args with
  | .int e a =>
    if e = a then (.FAIL, some (gen_equals_fail_msg (toString e) (toString a) fmt)) else (.PASS, none)
  | .long _ _ => (.FAIL, some "Unsupported type for comparison")
  | .float e a =>
    if |e - a| ≤ FLT_EPSILON then
      (.FAIL, some (gen_equals_fail_msg (format_fixed5 e) (format_fixed5 a) fmt))
    else (.PASS, none)
  | .double e a =>
    if |e - a| ≤ DBL_EPSILON then
      (.FAIL, some (gen_equals_fail_msg (format_fixed5 e) (format_fixed5 a) fmt))
    else (.PASS, none)
  | .char e a =>
    if e = a then
      (.FAIL, some (gen_equals_fail_msg (String.mk [e]) (String.mk [a]) fmt))
    else (.PASS, none)
  | .ptr e a =>
    if e = a then
      (.FAIL, some (gen_equals_fail_msg (String.mk (Nat.toDigits 16 e)) (String.mk (Nat.toDigits 16 a)) fmt))
    else (.PASS, none)
  | .str _ _ => (.FAIL, some "Use Assert.stringEqual for string comparison")

/-- Embedding of assert_float_within (sigtest.c lines 621-639): FAIL with
"Value out of range" when value < min or value > max, PASS otherwise.  The three
C float arguments are modelled as exact rationals, which is faithful for all
finite (non-NaN) float values. -/
def assert_float_within (value min max : ℚ) (fmt : Option String) : AssertOutcome :=
  if value < min ∨ value > max then (.FAIL, some (with_user_msg "Value out of range" fmt))
  else (.PASS, none)

/-- Embedding of assert_string_equal (sigtest.c lines 641-655): strcmp when case
sensitive, strcasecmp (compare after lowering case) otherwise. -/
def assert_string_equal (expected actual : String) (case_sensitive : Bool) (fmt : Option String) :
    AssertOutcome :=
  let equal := if case_sensitive then expected = actual else expected.toLower = actual.toLower
  if ¬equal then (.FAIL, some (gen_equals_fail_msg expected actual fmt)) else (.PASS, none)

/-- Outcome computed by each operation of the Assert interface before it is
written through set_test_context; one case per function pointer of st_assert_i,
each translated from its sigtest.c implementation. -/
def assertOutcome : AssertCall → AssertOutcome
  | .isTrue condition fmt =>
    if ¬condition then (.FAIL, some (with_user_msg MESSAGE_TRUE_FAIL fmt)) else (.PASS, none)
  | .isFalse condition fmt =>
    if condition then (.FAIL, some (with_user_msg MESSAGE_FALSE_FAIL fmt)) else (.PASS, none)
  | .isNull ptr_is_null fmt =>
    if ¬ptr_is_null then (.FAIL, some (with_user_msg "Pointer is not NULL" fmt)) else (.PASS, none)
  | .isNotNull ptr_is_null fmt =>
    if ptr_is_null then (.FAIL, some (with_user_msg "Pointer is NULL" fmt)) else (.PASS, none)
  | .areEqual args fmt => assert_are_equal args fmt
  | .areNotEqual args fmt => assert_are_not_equal args fmt
  | .floatWithin value min max fmt => assert_float_within value min max fmt
  | .stringEqual e a cs fmt => assert_string_equal e a cs fmt
  | .throw fmt => (.FAIL, some (with_user_msg "Explicit throw triggered" fmt))
  | .fail fmt => (.FAIL, some (with_user_msg "Explicit failure triggered" fmt))
  | .skip fmt => (.SKIP, some (with_user_msg "Testcase skipped" fmt))

/-- Invocation of one Assert-interface operation: compute its outcome and hand
it to set_test_context, the single set-result primitive all assertions share. -/
def assertInvoke (call : AssertCall) (ctx : AssertCtx) : AssertCtx × Bool :=
  set_test_context (assertOutcome call).1 (assertOutcome call).2 ctx

/-- Execution of a test body inside the setjmp boundary of execute_test: the
body is the sequence of assertion calls it makes; each runs through
set_test_context, and the first non-PASS outcome longjmps out so later calls
never run.  Returns the final context, whether the unwind fired, and how many
assertion calls actually executed. -/
def run_body (body : List AssertCall) (ctx : AssertCtx) : AssertCtx × Bool × ℕ :=
  match body with
  | [] => (ctx, false, 0)
  | call :: rest =>
    let step := assertInvoke call ctx
    if step.2 then (step.1, true, 1)
    else
      let next := run_body rest step.1
      (next.1, next.2.1, next.2.2 + 1)

/-- Result recorded in the current case after a body ran, with a fallback for
the (unreachable while a case executes) contextless states. -/
def ctx_result (ctx : AssertCtx) (dflt : TestResult) : TestResult :=
  match ctx.current_set with
  | some s => s.current.getD dflt
  | none => dflt

/-- Round-to-nearest integer with ties to even, the IEEE-754 default rounding
used when a C decimal literal is converted to a binary floating type. -/
def roundTiesEven (q : ℚ) : ℤ :=
  if q - ⌊q⌋ < 1 / 2 then ⌊q⌋
  else if 1 / 2 < q - ⌊q⌋ then ⌊q⌋ + 1
  else if ⌊q⌋ % 2 = 0 then ⌊q⌋ else ⌊q⌋ + 1

/-- Binade search helper: shifts a positive rational into [1, 2) by powers of
two, accumulating the exponent.  Structural recursion on a fuel bound large
enough for the whole binary64 exponent range. -/
def ilog2Aux : ℕ → ℚ → ℤ → ℤ
  | 0, _, acc => acc
  | fuel + 1, q, acc =>
    if q < 1 then ilog2Aux fuel (q * 2) (acc - 1)
    else if 2 ≤ q then ilog2Aux fuel (q / 2) (acc + 1)
    else acc

/-- Exponent of the leading binade of a positive rational: the unique e with
2^e ≤ q < 2^(e+1), for q within the binary64 exponent range. -/
def ilog2 (q : ℚ) : ℤ := ilog2Aux 4500 q 0

/-- Rounds a positive rational to the nearest binary floating value with the
given significand precision (24 bits for float, 53 for double), exponent taken
from the leading binade.  Faithful whenever the result lies in the normal
range, which covers every literal the program uses. -/
def roundBinaryPos (prec : ℕ) (q : ℚ) : ℚ :=
  (roundTiesEven (q * 2 ^ ((prec : ℤ) - 1 - ilog2 q)) : ℚ) * 2 ^ (ilog2 q - ((prec : ℤ) - 1))

/-- Rounds a rational to the nearest binary floating value of the given
significand precision (sign-symmetric, zero fixed). -/
def roundBinary (prec : ℕ) (q : ℚ) : ℚ :=
  if q = 0 then 0
  else if q < 0 then -roundBinaryPos prec (-q)
  else roundBinaryPos prec q

/-- Value of a C double literal: the decimal rounded to binary64. -/
def toFloat64 (q : ℚ) : ℚ := roundBinary 53 q

/-- Value obtained when a C double is converted to float: rounded to binary32. -/
def toFloat32 (q : ℚ) : ℚ := roundBinary 24 q

/-- FLT_MAX of float.h: (2 - 2^-23) * 2^127, the largest finite binary32. -/
def FLT_MAX : ℚ := (2 ^ 24 - 1) * 2 ^ 104

/-- Fuzz input types, from fuzzing.h: FUZZ_INT, FUZZ_SIZE_T, FUZZ_FLOAT,
FUZZ_BYTE. -/
inductive FuzzType
  | FUZZ_INT
  | FUZZ_SIZE_T
  | FUZZ_FLOAT
  | FUZZ_BYTE
deriving DecidableEq, Repr

/-- Binary32 value as the fuzz float dataset needs it: a finite value (an exact
rational), an infinity, or NaN.  The two C zero literals 0.0f and -0.0f both
denote the finite value 0. -/
inductive Float32
  | finite (q : ℚ)
  | inf
  | negInf
  | nan
deriving DecidableEq, Repr

/-- One element of a fuzz dataset, tagged by the C element type the runner
feeds to the fuzz body (int, size_t, float, signed char). -/
inductive FuzzValue
  | int (n : ℤ)
  | size (n : ℕ)
  | flt (f : Float32)
  | byte (n : ℤ)
deriving DecidableEq, Repr

/-- INT_MIN of limits.h for 32-bit int. -/
def INT_MIN : ℤ := -(2 ^ 31)

/-- INT_MAX of limits.h for 32-bit int. -/
def INT_MAX : ℤ := 2 ^ 31 - 1

/-- SIZE_MAX of stdint.h for 64-bit size_t. -/
def SIZE_MAX : ℕ := 2 ^ 64 - 1

/-- SCHAR_MIN of limits.h. -/
def SCHAR_MIN : ℤ := -128

/-- SCHAR_MAX of limits.h. -/
def SCHAR_MAX : ℤ := 127

/-- Literal decimal of the smallest positive normal float as written in
fuzzing.h: 1.17549435e-38f. -/
def fuzz_min_normal_literal : ℚ := 117549435 / 10 ^ 46

/-- Integer fuzz dataset fuzz_int_values (fuzzing.h lines 58-61):
INT_MIN, INT_MIN+1, -1, 0, 1, INT_MAX-1, INT_MAX. -/
def fuzz_int_values : List ℤ :=
  [INT_MIN, INT_MIN + 1, -1, 0, 1, INT_MAX - 1, INT_MAX]

/-- size_t fuzz dataset fuzz_size_t_values (fuzzing.h lines 64-68):
0, 1, SIZE_MAX/2, SIZE_MAX-1, SIZE_MAX. -/
def fuzz_size_t_values : List ℕ :=
  [0, 1, SIZE_MAX / 2, SIZE_MAX - 1, SIZE_MAX]

/-- Float fuzz dataset fuzz_float_values (fuzzing.h lines 71-82): -INFINITY,
-FLT_MAX, -1.0f, -0.0f, 0.0f, 1.0f, FLT_MAX, INFINITY, NAN, and the smallest
positive normal float with its negation (the 1.17549435e-38f literal rounded
through double to float). -/
def fuzz_float_values : List Float32 :=
  [.negInf, .finite (-FLT_MAX), .finite (-1), .finite 0, .finite 0, .finite 1,
   .finite FLT_MAX, .inf, .nan,
   .finite (toFloat32 (toFloat64 fuzz_min_normal_literal)),
   .finite (-(toFloat32 (toFloat64 fuzz_min_normal_literal)))]

/-- Byte fuzz dataset fuzz_byte_values (fuzzing.h lines 85-86):
SCHAR_MIN, -1, 0, 1, SCHAR_MAX. -/
def fuzz_byte_values : List ℤ :=
  [SCHAR_MIN, -1, 0, 1, SCHAR_MAX]

/-- Dataset selection performed at the FUZZING_INIT state of run_tests
(sigtest.c lines 1251-1287): the case's fuzz_type picks the fixed dataset (and
its element size) from fuzzing.h.  The C default branch is unreachable because
the FuzzType enum is exhaustive here. -/
def fuzzDataset : FuzzType → List FuzzValue
  | .FUZZ_INT => fuzz_int_values.map FuzzValue.int
  | .FUZZ_SIZE_T => fuzz_size_t_values.map FuzzValue.size
  | .FUZZ_FLOAT => fuzz_float_values.map FuzzValue.flt
  | .FUZZ_BYTE => fuzz_byte_values.map FuzzValue.byte

/-- Value held in one function-pointer slot of a hook bundle: either a
user-supplied callback (identified opaquely) or one of the six built-in default
callbacks of sigtest.c that runner_init back-fills. -/
inductive Callback
  | user (id : ℕ)
  | default_before_test
  | default_after_test
  | default_on_start_test
  | default_on_end_test
  | default_on_error
  | default_on_test_result
deriving DecidableEq, Repr

/-- Hook bundle st_hooks_s as sigtest.c uses it: a name plus twelve optional
callbacks (the struct definition lives in the core header, absent from this
tree; the slot list is the one sigtest.c reads and writes: before_set,
after_set, before_test, after_test, on_start_test, on_end_test, on_error,
on_test_result, on_set_summary, on_memory_alloc, on_memory_free, on_debug_log).
A NULL function pointer is none.  The opaque context blob is not modelled. -/
structure HooksM where
  name : String
  before_set : Option Callback
  after_set : Option Callback
  before_test : Option Callback
  after_test : Option Callback
  on_start_test : Option Callback
  on_end_test : Option Callback
  on_error : Option Callback
  on_test_result : Option Callback
  on_set_summary : Option Callback
  on_memory_alloc : Option Callback
  on_memory_free : Option Callback
  on_debug_log : Option Callback
deriving DecidableEq, Repr

/-- Default back-filling block of runner_init (sigtest.c lines 1362-1375): each
of the six slots before_test, after_test, on_start_test, on_end_test, on_error,
on_test_result is set to its built-in default when NULL; no other slot is
touched. -/
def backfill_defaults (h : HooksM) : HooksM :=
  { h with
    before_test := match h.before_test with
      | none => some .default_before_test
      | some c => some c
    after_test := match h.after_test with
      | none => some .default_after_test
      | some c => some c
    on_start_test := match h.on_start_test with
      | none => some .default_on_start_test
      | some c => some c
    on_end_test := match h.on_end_test with
      | none => some .default_on_end_test
      | some c => some c
    on_error := match h.on_error with
      | none => some .default_on_error
      | some c => some c
    on_test_result := match h.on_test_result with
      | none => some .default_on_test_result
      | some c => some c }

/-- Body of a registered test case: the tagged union func of st_case_s together
with its is_fuzz discriminator.  A plain body is the sequence of Assert calls
it makes; a fuzz body maps the injected input value to the Assert calls it
makes for that input. -/
inductive TestFuncM
  | test (body : List AssertCall)
  | fuzz (body : FuzzValue → List AssertCall)

/-- Test case st_case_s (sigtest.c lines 107-130).  The id models the malloc
pointer identity of the node (each create_testcase call yields a fresh one);
name, expectation flags, fuzz input type and the mutable result slot are as in
the source.  The presentation-only fields (has_next, ran_no_newline, had_debug,
running_len) are not modelled. -/
structure TestCaseM where
  id : ℕ
  name : String
  func : TestFuncM
  expect_fail : Bool
  expect_throw : Bool
  fuzz_type : FuzzType
  result : TestResult

/-- Test set st_set_s (sigtest.c lines 134-153): name, the optional per-case
setup/teardown operations and whole-set cleanup (modelled by their presence,
since the runner only checks the pointer and calls it), the case list (head and
tail pointers become one Lean list), the count/passed/failed/skipped counters of
info, and the optionally bound hook bundle.  log_stream/logger/current are
presentation state and not modelled. -/
structure TestSetM where
  name : String
  has_setup : Bool
  has_teardown : Bool
  has_cleanup : Bool
  cases : List TestCaseM
  count : ℕ
  passed : ℕ
  failed : ℕ
  skipped : ℕ
  hooks : Option HooksM

/-- One iteration of the hook-resolution loop in runner_init (sigtest.c lines
1348-1360): per set, when neither an explicit bundle nor a set-bound bundle
exists the head of the hook registry (if any) is taken; an explicit bundle wins
otherwise; else the set-bound bundle.  The accumulator carries the bundle
resolved so far. -/
def resolve_hooks_step (test_hooks : Option HooksM) (registry : List HooksM)
    (hooks : Option HooksM) (set : TestSetM) : Option HooksM :=
  if test_hooks.isNone ∧ set.hooks.isNone then
    match registry with
    | h :: _ => some h
    | [] => hooks
  else if test_hooks.isSome then test_hooks
  else set.hooks

/-- Embedding of runner_init (sigtest.c lines 1341-1382): iterate the sets
resolving the active hook bundle, and back-fill the missing callbacks of the
resolved bundle with the built-in defaults.  Returns the bundle the run will
use (none when nothing is registered anywhere, in which case the C pointer
stays NULL). -/
def runner_init (sets : List TestSetM) (test_hooks : Option HooksM)
    (registry : List HooksM) : Option HooksM :=
  (sets.foldl (resolve_hooks_step test_hooks registry) none).map backfill_defaults

/-- Registration call made before a run, one constructor per function of the
registration surface in sigtest.c: testset, testcase, fail_testcase,
testcase_throws, fuzz_testcase, setup_testcase, teardown_testcase. -/
inductive RegOp
  | testset (name : String) (has_cleanup : Bool)
  | testcase (name : String) (body : List AssertCall)
  | fail_testcase (name : String) (body : List AssertCall)
  | testcase_throws (name : String) (body : List AssertCall)
  | fuzz_testcase (name : String) (body : FuzzValue → List AssertCall) (type : FuzzType)
  | setup_testcase
  | teardown_testcase

/-- Registration-time global state: the test_sets registry list (newest set at
the head; current_set always points at the head during registration) plus a
fresh-id counter modelling the allocator handing out distinct case nodes. -/
structure RegState where
  sets : List TestSetM
  next_id : ℕ

/-- Embedding of create_testcase (sigtest.c lines 898-924): a fresh node with
result PASS / no message, no expectations, not fuzz, empty body.  The C code
leaves fuzz_type uninitialized; it is only read when the fuzz registration
function has set it, so any fixed default is faithful. -/
def create_testcase (id : ℕ) (name : String) : TestCaseM :=
  { id := id, name := name, func := .test [], expect_fail := false,
    expect_throw := false, fuzz_type := .FUZZ_INT,
    result := ⟨.PASS, none⟩ }

/-- Embedding of testset (sigtest.c lines 744-801): pushes a fresh empty set at
the head of the registry and makes it current. -/
def testset_reg (name : String) (has_cleanup : Bool) (st : RegState) : RegState :=
  { st with sets :=
      { name := name, has_setup := false, has_teardown := false,
        has_cleanup := has_cleanup, cases := [], count := 0, passed := 0,
        failed := 0, skipped := 0, hooks := none } :: st.sets }

/-- Common registration tail of testcase / fail_testcase / testcase_throws /
fuzz_testcase (sigtest.c lines 805-883): if no set is current a default set is
created first, then the new case is appended at the tail of the current set and
its count is incremented.  The fresh-id counter advances to model the new
malloc. -/
def append_case (mk : ℕ → TestCaseM) (st : RegState) : RegState :=
  let st1 := if st.sets.isEmpty then testset_reg "default" false st else st
  match st1.sets with
  | s :: rest =>
    { sets := { s with cases := s.cases ++ [mk st.next_id], count := s.count + 1 } :: rest,
      next_id := st.next_id + 1 }
  | [] => st1

/-- Applies one registration call to the registration state, translated from
the corresponding sigtest.c function: testcase sets func.test; fail_testcase
additionally expect_fail; testcase_throws additionally expect_throw;
fuzz_testcase sets is_fuzz, func.fuzz and fuzz_type; setup_testcase and
teardown_testcase install the per-case operation on the current set when one
exists. -/
def applyRegOp (st : RegState) (op : RegOp) : RegState :=
  match op with
  | .testset name has_cleanup => testset_reg name has_cleanup st
  | .testcase name body =>
    append_case (fun id => { create_testcase id name with func := .test body }) st
  | .fail_testcase name body =>
    append_case (fun id =>
      { create_testcase id name with func := .test body, expect_fail := true }) st
  | .testcase_throws name body =>
    append_case (fun id =>
      { create_testcase id name with func := .test body, expect_throw := true }) st
  | .fuzz_testcase name body type =>
    append_case (fun id =>
      { create_testcase id name with func := .fuzz body, fuzz_type := type }) st
  | .setup_testcase =>
    match st.sets with
    | s :: rest => { st with sets := { s with has_setup := true } :: rest }
    | [] => st
  | .teardown_testcase =>
    match st.sets with
    | s :: rest => { st with sets := { s with has_teardown := true } :: rest }
    | [] => st

/-- Registry produced by a startup sequence of registration calls, from the
empty initial state (test_sets = NULL). -/
def register_all (ops : List RegOp) : RegState :=
  ops.foldl applyRegOp ⟨[], 0⟩

/-- Observable lifecycle event of a run, one per state-handler action of the
run_tests state machine that touches a set, a case, or the summary. -/
inductive Event
  | before_set_ev (setName : String)
  | before_test_ev (tcName : String)
  | setup_test_ev (tcName : String)
  | start_test_ev (tcName : String)
  | execute_test_ev (tcName : String)
  | end_test_ev (tcName : String)
  | process_result_ev (tcName : String)
  | teardown_test_ev (tcName : String)
  | after_test_ev (tcName : String)
  | after_set_ev (setName : String)
  | cleanup_ev (setName : String)
  | summary_ev
deriving DecidableEq, Repr

/-- Local counters of run_tests (sigtest.c lines 1183-1197): total_tests over
the whole run and the per-set tc_total/tc_passed/tc_failed/tc_skipped, which
set_init resets for each set. -/
structure RunTotals where
  total_tests : ℕ
  tc_total : ℕ
  tc_passed : ℕ
  tc_failed : ℕ
  tc_skipped : ℕ
deriving DecidableEq, Repr

/-- Iteration loop of execute_fuzzing (sigtest.c lines 1477-1496): each dataset
element is fed to the fuzz body inside its own setjmp boundary; an aborting
iteration bumps failed_count and resets the message slot, then iteration
continues with the next element. -/
def fuzz_iterate (f : FuzzValue → List AssertCall) :
    List FuzzValue → TestResult → ℕ → TestResult × ℕ
  | [], r, failed_count => (r, failed_count)
  | input :: rest, r, failed_count =>
    let step := run_body (f input) ⟨some ⟨some r⟩⟩
    let r' := ctx_result step.1 r
    if step.2.1 then
      fuzz_iterate f rest { r' with message := none } (failed_count + 1)
    else
      fuzz_iterate f rest r' failed_count

/-- Specification predicate: a fuzz iteration on input v aborts (longjmps out
of its boundary) exactly when its body makes some assertion whose computed
outcome is not PASS. -/
def iteration_fails (f : FuzzValue → List AssertCall) (v : FuzzValue) : Bool :=
  (f v).any (fun c => (assertOutcome c).1 ≠ TestState.PASS)

/-- Embedding of execute_fuzzing (sigtest.c lines 1472-1511): run every dataset
element through the body, then record the aggregate result: PASS with no
message when no iteration failed, otherwise FAIL with the summary message
"(count - failed_count) of count fuzz iterations passed". -/
def execute_fuzzing (tc : TestCaseM) (f : FuzzValue → List AssertCall)
    (dataset : List FuzzValue) : TestCaseM :=
  let loop := fuzz_iterate f dataset tc.result 0
  let failed_count := loop.2
  let count := dataset.length
  if failed_count = 0 then
    { tc with result := ⟨.PASS, none⟩ }
  else
    { tc with result := ⟨.FAIL,
        some (toString (count - failed_count) ++ " of " ++ toString count
          ++ " fuzz iterations passed")⟩ }

/-- Embedding of execute_test plus the FUZZING_INIT dispatch (sigtest.c lines
1459-1471 and 1251-1287): a plain body runs inside the setjmp boundary with
assertions writing into the current case, a fuzz body goes through dataset
selection and execute_fuzzing. -/
def execute_test (tc : TestCaseM) : TestCaseM :=
  match tc.func with
  | .test body =>
    let run := run_body body ⟨some ⟨some tc.result⟩⟩
    { tc with result := ctx_result run.1 tc.result }
  | .fuzz f => execute_fuzzing tc f (fuzzDataset tc.fuzz_type)

/-- Expectation-inversion block of process_result (sigtest.c lines 1536-1562):
for an expect_fail case, FAIL becomes PASS (the message, when present, becomes
"Expected failure occurred") and any non-SKIP non-FAIL state becomes FAIL with
message "Expected failure but passed"; the expect_throw branch is identical
with the throw wording.  SKIP is left alone. -/
def invert_expectation (tc : TestCaseM) : TestCaseM :=
  if tc.expect_fail then
    if tc.result.state = .FAIL then
      { tc with result := ⟨.PASS, tc.result.message.map (fun _ => "Expected failure occurred")⟩ }
    else if tc.result.state ≠ .SKIP then
      { tc with result := ⟨.FAIL, some "Expected failure but passed"⟩ }
    else tc
  else if tc.expect_throw then
    if tc.result.state = .FAIL then
      { tc with result := ⟨.PASS, tc.result.message.map (fun _ => "Expected throw occurred")⟩ }
    else if tc.result.state ≠ .SKIP then
      { tc with result := ⟨.FAIL, some "Expected throw but passed"⟩ }
    else tc
  else tc

/-- Embedding of process_result (sigtest.c lines 1532-1601): apply expectation
inversion, notify the result (hook or default logger), and bump the counter
matching the final state, both the per-set info counters and the local run
counters. -/
def process_result (tc : TestCaseM) (set : TestSetM) (t : RunTotals) :
    TestCaseM × TestSetM × RunTotals :=
  let tc1 := invert_expectation tc
  let bumped :=
    match tc1.result.state with
    | .PASS => ({ set with passed := set.passed + 1 }, { t with tc_passed := t.tc_passed + 1 })
    | .SKIP => ({ set with skipped := set.skipped + 1 }, { t with tc_skipped := t.tc_skipped + 1 })
    | .FAIL => ({ set with failed := set.failed + 1 }, { t with tc_failed := t.tc_failed + 1 })
  (tc1, bumped.1,
   { bumped.2 with tc_total := bumped.2.tc_total + 1, total_tests := bumped.2.total_tests + 1 })

/-- One pass of the per-case states CASE_INIT through AFTER_TEST of run_tests
(sigtest.c lines 1230-1317): before_test, optional setup, start, execute (with
fuzz dispatch), end, then at TEARDOWN_TEST the result is processed first and
the optional teardown runs afterwards, and finally after_test.  Returns the
executed case, the set with updated counters, the updated run counters, and
the emitted event sequence. -/
def run_case (set : TestSetM) (t : RunTotals) (tc : TestCaseM) :
    TestCaseM × TestSetM × RunTotals × List Event :=
  let tc1 := execute_test tc
  let processed := process_result tc1 set t
  (processed.1, processed.2.1, processed.2.2,
   [Event.before_test_ev tc.name]
     ++ (if set.has_setup then [Event.setup_test_ev tc.name] else [])
     ++ [Event.start_test_ev tc.name, Event.execute_test_ev tc.name,
         Event.end_test_ev tc.name, Event.process_result_ev tc.name]
     ++ (if set.has_teardown then [Event.teardown_test_ev tc.name] else [])
     ++ [Event.after_test_ev tc.name])

/-- CASE_LOOP of run_tests: iterates run_case over the linked case list of the
current set, threading the set counters and run counters. -/
def run_cases (set : TestSetM) (t : RunTotals) (cs : List TestCaseM) :
    List TestCaseM × TestSetM × RunTotals × List Event :=
  match cs with
  | [] => ([], set, t, [])
  | tc :: rest =>
    let one := run_case set t tc
    let more := run_cases one.2.1 one.2.2.1 rest
    (one.1 :: more.1, more.2.1, more.2.2.1, one.2.2.2 ++ more.2.2.2)

/-- SET_INIT through AFTER_SET for one set (sigtest.c lines 1391-1424 and
1602-1636): reset the per-set counters, run before_set, every case, after_set
with its summary, and the optional whole-set cleanup. -/
def run_set (t : RunTotals) (set : TestSetM) : TestSetM × RunTotals × List Event :=
  let t0 := { t with tc_total := 0, tc_passed := 0, tc_failed := 0, tc_skipped := 0 }
  let ran := run_cases set t0 set.cases
  ({ ran.2.1 with cases := ran.1 }, ran.2.2.1,
   [Event.before_set_ev set.name] ++ ran.2.2.2 ++ [Event.after_set_ev set.name]
     ++ (if set.has_cleanup then [Event.cleanup_ev set.name] else []))

/-- SET_LOOP of run_tests: iterates run_set over the registry in its list
order (reverse registration order, newest-registered set first). -/
def run_sets (t : RunTotals) (sets : List TestSetM) :
    List TestSetM × RunTotals × List Event :=
  match sets with
  | [] => ([], t, [])
  | s :: rest =>
    let one := run_set t s
    let more := run_sets one.2.1 rest
    (one.1 :: more.1, more.2.1, one.2.2 ++ more.2.2)

/-- Embedding of runner_done (sigtest.c lines 1654-1657): the process exit
status is EXIT_FAILURE exactly when the failed counter of the set passed to it
is positive — and run_tests passes it the head of the registry. -/
def runner_done (set : TestSetM) : ℕ :=
  if set.failed > 0 then 1 else 0

/-- Embedding of run_tests (sigtest.c lines 1181-1339): initialize and resolve
hooks, drive every set through the state machine, emit the summary, and return
runner_done of the registry head.  On an empty registry runner_summary and
runner_done dereference a NULL set, modelled as exit status none. -/
def run_tests (sets : List TestSetM) (test_hooks : Option HooksM)
    (registry : List HooksM) : List TestSetM × Option ℕ × List Event :=
  let _hooks := runner_init sets test_hooks registry
  let ran := run_sets ⟨0, 0, 0, 0, 0⟩ sets
  (ran.1,
   (match ran.1 with
    | s :: _ => some (runner_done s)
    | [] => none),
   ran.2.2 ++ [Event.summary_ev])

/-- Concrete fixture: a registered case whose body passes its one assertion. -/
def tc_passing : TestCaseM :=
  { id := 0, name := "works", func := .test [AssertCall.isTrue true none],
    expect_fail := false, expect_throw := false, fuzz_type := .FUZZ_INT,
    result := ⟨.PASS, none⟩ }

/-- Concrete fixture: a registered case whose body fails its one assertion. -/
def tc_failing : TestCaseM :=
  { id := 1, name := "breaks", func := .test [AssertCall.isTrue false none],
    expect_fail := false, expect_throw := false, fuzz_type := .FUZZ_INT,
    result := ⟨.PASS, none⟩ }

/-- Concrete fixture: a set holding only the passing case.  Registered last, so
it sits at the head of the registry list. -/
def setA : TestSetM :=
  { name := "A", has_setup := false, has_teardown := true, has_cleanup := false,
    cases := [tc_passing], count := 1, passed := 0, failed := 0, skipped := 0,
    hooks := none }

/-- Concrete fixture: a set holding only the failing case, behind setA in the
registry. -/
def setB : TestSetM :=
  { name := "B", has_setup := false, has_teardown := false, has_cleanup := false,
    cases := [tc_failing], count := 1, passed := 0, failed := 0, skipped := 0,
    hooks := none }

/-- Concrete fixture: a hook bundle with every callback slot unset. -/
def hooks_all_unset : HooksM :=
  { name := "bare", before_set := none, after_set := none, before_test := none,
    after_test := none, on_start_test := none, on_end_test := none,
    on_error := none, on_test_result := none, on_set_summary := none,
    on_memory_alloc := none, on_memory_free := none, on_debug_log := none }

/-- Concrete fixture: a set bound to the all-unset hook bundle. -/
def setH : TestSetM :=
  { name := "H", has_setup := false, has_teardown := false, has_cleanup := false,
    cases := [], count := 0, passed := 0, failed := 0, skipped := 0,
    hooks := some hooks_all_unset }

/-- Concrete fixture: a small registration sequence (one set, one case). -/
def sample_ops : List RegOp :=
  [RegOp.testset "suite" false, RegOp.testcase "first" [AssertCall.isTrue true none]]

/-- All case ids across all sets of a registry, used to state that every
registered case node belongs to exactly one set (pointer identity). -/
def all_case_ids : List TestSetM → List ℕ
  | [] => []
  | s :: rest => s.cases.map (fun c => c.id) ++ all_case_ids rest

/-- Helper: ilog2Aux returns the accumulator as soon as its argument lies in
the stopping interval [1, 2). -/
theorem ilog2Aux_base (fuel : ℕ) (q : ℚ) (acc : ℤ) (h1 : 1 ≤ q) (h2 : q < 2) :
    ilog2Aux fuel q acc = acc := by
  cases fuel with
  | zero => rfl
  | succ f =>
    simp only [ilog2Aux]
    rw [if_neg (not_lt.mpr h1), if_neg (not_le.mpr h2)]

/-- Helper: ilog2Aux on an argument k+1 doublings below the stopping interval
subtracts k+1 from the accumulator. -/
theorem ilog2Aux_up (k : ℕ) : ∀ (fuel : ℕ) (q : ℚ) (acc : ℤ), k + 2 ≤ fuel →
    q * 2 ^ k < 1 → 1 ≤ q * 2 ^ (k + 1) → ilog2Aux fuel q acc = acc - (k + 1) := by
  induction k with
  | zero =>
    intro fuel q acc hf h1 h2
    match fuel, hf with
    | f + 1, _ =>
      have hq : q < 1 := by simpa using h1
      have h2' : 1 ≤ q * 2 := by simpa [pow_succ] using h2
      simp only [ilog2Aux, if_pos hq]
      rw [ilog2Aux_base f (q * 2) (acc - 1) h2' (by linarith)]
      push_cast
      ring
  | succ k ih =>
    intro fuel q acc hf h1 h2
    match fuel, hf with
    | f + 1, _ =>
      have h2p : (1 : ℚ) ≤ 2 ^ (k + 1) := by
        calc (1 : ℚ) = 1 ^ (k + 1) := (one_pow _).symm
        _ ≤ 2 ^ (k + 1) := by gcongr <;> norm_num
      have hq : q < 1 := by nlinarith [h1, h2p]
      simp only [ilog2Aux, if_pos hq]
      have e1 : q * 2 * 2 ^ k < 1 := by
        calc q * 2 * 2 ^ k = q * 2 ^ (k + 1) := by rw [pow_succ]; ring
        _ < 1 := h1
      have e2 : 1 ≤ q * 2 * 2 ^ (k + 1) := by
        calc (1 : ℚ) ≤ q * 2 ^ (k + 2) := h2
        _ = q * 2 * 2 ^ (k + 1) := by rw [pow_succ]; ring
      rw [ih f (q * 2) (acc - 1) (by omega) e1 e2]
      push_cast
      ring

/-- Helper: ilog2Aux on an argument k+1 halvings above the stopping interval
adds k+1 to the accumulator. -/
theorem ilog2Aux_down (k : ℕ) : ∀ (fuel : ℕ) (q : ℚ) (acc : ℤ), k + 2 ≤ fuel →
    (2 : ℚ) ^ (k + 1) ≤ q → q < 2 ^ (k + 2) → ilog2Aux fuel q acc = acc + (k + 1) := by
  induction k with
  | zero =>
    intro fuel q acc hf h1 h2
    match fuel, hf with
    | f + 1, _ =>
      have h2q : (2 : ℚ) ≤ q := by simpa using h1
      have h4q : q < 4 := by
        have : ((2 : ℚ)) ^ (0 + 2) = 4 := by norm_num
        linarith [h2]
      simp only [ilog2Aux]
      rw [if_neg (not_lt.mpr (by linarith)), if_pos h2q]
      rw [ilog2Aux_base f (q / 2) (acc + 1) (by linarith) (by linarith)]
      push_cast
      ring
  | succ k ih =>
    intro fuel q acc hf h1 h2
    match fuel, hf with
    | f + 1, _ =>
      have h2p : (2 : ℚ) ≤ 2 ^ (k + 2) := by
        calc (2 : ℚ) = 2 ^ 1 := (pow_one 2).symm
        _ ≤ 2 ^ (k + 2) := pow_le_pow_right₀ (by norm_num) (by omega)
      have h2q : (2 : ℚ) ≤ q := le_trans h2p h1
      simp only [ilog2Aux]
      rw [if_neg (not_lt.mpr (by linarith)), if_pos h2q]
      have e1 : (2 : ℚ) ^ (k + 1) ≤ q / 2 := by
        have : (2 : ℚ) ^ (k + 2) = 2 ^ (k + 1) * 2 := by rw [pow_succ]
        linarith [h1, this]
      have e2 : q / 2 < 2 ^ (k + 2) := by
        have : (2 : ℚ) ^ (k + 3) = 2 ^ (k + 2) * 2 := by rw [pow_succ]
        linarith [h2, this]
      rw [ih f (q / 2) (acc + 1) (by omega) e1 e2]
      push_cast
      ring

/-- Helper: value of ilog2 on the interval [1, 2). -/
theorem ilog2_base (q : ℚ) (h1 : 1 ≤ q) (h2 : q < 2) : ilog2 q = 0 :=
  ilog2Aux_base 4500 q 0 h1 h2

/-- Helper: value of ilog2 below 1, stated multiplicatively: when
q * 2^k < 1 ≤ q * 2^(k+1), the leading binade exponent is -(k+1). -/
theorem ilog2_neg (k : ℕ) (q : ℚ) (hk : k + 2 ≤ 4500) (h1 : q * 2 ^ k < 1)
    (h2 : 1 ≤ q * 2 ^ (k + 1)) : ilog2 q = -(k + 1) := by
  unfold ilog2
  rw [ilog2Aux_up k 4500 q 0 hk h1 h2]
  ring

/-- Helper: value of ilog2 at or above 2: when 2^(k+1) ≤ q < 2^(k+2), the
leading binade exponent is k+1. -/
theorem ilog2_pos (k : ℕ) (q : ℚ) (hk : k + 2 ≤ 4500) (h1 : (2 : ℚ) ^ (k + 1) ≤ q)
    (h2 : q < 2 ^ (k + 2)) : ilog2 q = k + 1 := by
  unfold ilog2
  rw [ilog2Aux_down k 4500 q 0 hk h1 h2]
  ring

/-- Helper: roundTiesEven rounds down to n when q lies in [n, n + 1/2). -/
theorem roundTiesEven_down (q : ℚ) (n : ℤ) (h1 : (n : ℚ) ≤ q) (h2 : q - n < 1 / 2) :
    roundTiesEven q = n := by
  have hfl : ⌊q⌋ = n := Int.floor_eq_iff.mpr ⟨h1, by push_cast; linarith⟩
  unfold roundTiesEven
  rw [hfl, if_pos h2]

/-- Helper: roundTiesEven rounds up to n when q lies in (n - 1/2, n]. -/
theorem roundTiesEven_up (q : ℚ) (n : ℤ) (h1 : (n : ℚ) - 1 / 2 < q) (h2 : q ≤ n) :
    roundTiesEven q = n := by
  rcases eq_or_lt_of_le h2 with heq | hlt
  · have hfl : ⌊q⌋ = n := by rw [heq]; exact Int.floor_intCast n
    unfold roundTiesEven
    rw [hfl, if_pos (by rw [heq]; norm_num)]
  · have hfl : ⌊q⌋ = n - 1 := Int.floor_eq_iff.mpr ⟨by push_cast; linarith, by push_cast; linarith⟩
    unfold roundTiesEven
    rw [hfl, if_neg (by push_cast; linarith), if_pos (by push_cast; linarith)]
    omega

/-- Helper: binary64 value of the literal 1.00000001. -/
theorem tf64_lit1 : toFloat64 (100000001 / 100000000) = 4503599672406492 / 4503599627370496 := by
  unfold toFloat64 roundBinary
  rw [if_neg (by norm_num), if_neg (by norm_num)]
  unfold roundBinaryPos
  rw [ilog2_base _ (by norm_num) (by norm_num)]
  norm_num
  rw [roundTiesEven_down _ 4503599672406492 (by norm_num) (by norm_num)]
  norm_num

/-- Helper: converting the binary64 value of 1.00000001 to float yields exactly
1.0, because the excess 1e-8 is far below half an ulp of binary32 at 1. -/
theorem tf32_lit1 : toFloat32 (4503599672406492 / 4503599627370496) = 1 := by
  unfold toFloat32 roundBinary
  rw [if_neg (by norm_num), if_neg (by norm_num)]
  unfold roundBinaryPos
  rw [ilog2_base _ (by norm_num) (by norm_num)]
  norm_num
  rw [roundTiesEven_down _ 8388608 (by norm_num) (by norm_num)]
  norm_num

/-- Helper: 2.0 is exactly representable in binary64. -/
theorem tf64_two : toFloat64 2 = 2 := by
  unfold toFloat64 roundBinary
  rw [if_neg (by norm_num), if_neg (by norm_num)]
  unfold roundBinaryPos
  rw [ilog2_pos 0 _ (by norm_num) (by norm_num) (by norm_num)]
  norm_num
  rw [roundTiesEven_down _ 4503599627370496 (by norm_num) (by norm_num)]
  norm_num

/-- Helper: 2.0 is exactly representable in binary32. -/
theorem tf32_two : toFloat32 2 = 2 := by
  unfold toFloat32 roundBinary
  rw [if_neg (by norm_num), if_neg (by norm_num)]
  unfold roundBinaryPos
  rw [ilog2_pos 0 _ (by norm_num) (by norm_num) (by norm_num)]
  norm_num
  rw [roundTiesEven_down _ 8388608 (by norm_num) (by norm_num)]
  norm_num

/-- Helper: binary64 value of the literal 1.17549435e-38 from fuzzing.h. -/
theorem tf64_minlit : toFloat64 fuzz_min_normal_literal = 9007199248440232 / 2 ^ 179 := by
  unfold toFloat64 roundBinary fuzz_min_normal_literal
  rw [if_neg (by norm_num), if_neg (by norm_num)]
  unfold roundBinaryPos
  rw [ilog2_neg 126 _ (by norm_num) (by norm_num) (by norm_num)]
  norm_num
  rw [roundTiesEven_down _ 9007199248440232 (by norm_num) (by norm_num)]
  norm_num

/-- Helper: converting that binary64 value to float yields 2^-126, the smallest
positive normal binary32. -/
theorem tf32_minnorm : toFloat32 (9007199248440232 / 2 ^ 179) = 1 / 2 ^ 126 := by
  unfold toFloat32 roundBinary
  rw [if_neg (by norm_num), if_neg (by norm_num)]
  unfold roundBinaryPos
  rw [ilog2_neg 126 _ (by norm_num) (by norm_num) (by norm_num)]
  norm_num
  rw [roundTiesEven_up _ 16777216 (by norm_num) (by norm_num)]
  norm_num

/-- Helper: the fuzzing.h smallest-normal literal, rounded through double to
float as the C compiler does, is exactly 2^-126. -/
theorem min_normal_value : toFloat32 (toFloat64 fuzz_min_normal_literal) = 1 / 2 ^ 126 := by
  rw [tf64_minlit, tf32_minnorm]



/-- Helper: invoking an assertion in an active context writes its outcome and
jumps exactly when the outcome is not PASS. -/
theorem assertInvoke_active (call : AssertCall) (r : TestResult) :
    assertInvoke call ⟨some ⟨some r⟩⟩ =
      (⟨some ⟨some ⟨(assertOutcome call).1, (assertOutcome call).2⟩⟩⟩,
       decide ((assertOutcome call).1 ≠ TestState.PASS)) := by
  rfl

/-- Helper: a body stops at its first non-passing assertion. -/
theorem run_body_first_fail (pre : List AssertCall) :
    ∀ (c : AssertCall) (post : List AssertCall) (r : TestResult),
    (∀ p ∈ pre, (assertOutcome p).1 = TestState.PASS) →
    (assertOutcome c).1 ≠ TestState.PASS →
    run_body (pre ++ c :: post) ⟨some ⟨some r⟩⟩ =
      (⟨some ⟨some ⟨(assertOutcome c).1, (assertOutcome c).2⟩⟩⟩, true, pre.length + 1) := by
  induction pre with
  | nil =>
    intro c post r hpre hc
    simp only [List.nil_append, run_body, assertInvoke_active, decide_eq_true hc]
    simp
  | cons p pre ih =>
    intro c post r hpre hc
    have hp : (assertOutcome p).1 = TestState.PASS := hpre p (List.mem_cons_self p pre)
    have hrec := ih c post ⟨TestState.PASS, (assertOutcome p).2⟩
      (fun q hq => hpre q (List.mem_cons_of_mem p hq)) hc
    simp only [List.cons_append, run_body, assertInvoke_active, hp]
    simp [hrec]

/-- Helper: a body all of whose assertions pass runs to the end with no jump. -/
theorem run_body_all_pass (body : List AssertCall) :
    ∀ (r : TestResult),
    (∀ p ∈ body, (assertOutcome p).1 = TestState.PASS) →
    (run_body body ⟨some ⟨some r⟩⟩).2 = (false, body.length) := by
  induction body with
  | nil => intro r h; rfl
  | cons p rest ih =>
    intro r h
    have hp : (assertOutcome p).1 = TestState.PASS := h p (List.mem_cons_self p rest)
    have hrec := ih ⟨TestState.PASS, (assertOutcome p).2⟩
      (fun q hq => h q (List.mem_cons_of_mem p hq))
    simp only [run_body, assertInvoke_active, hp]
    simp [Prod.ext_iff] at hrec
    simp [hrec]


/-- Helper: the jump flag of a body run is exactly whether some assertion in it
computes a non-PASS outcome. -/
theorem run_body_jump_iff (body : List AssertCall) :
    ∀ (r : TestResult),
    (run_body body ⟨some ⟨some r⟩⟩).2.1 =
      body.any (fun c => (assertOutcome c).1 ≠ TestState.PASS) := by
  induction body with
  | nil => intro r; rfl
  | cons p rest ih =>
    intro r
    simp only [run_body, assertInvoke_active, List.any_cons]
    by_cases hp : (assertOutcome p).1 = TestState.PASS
    · simp [hp, ih]
    · simp [hp]

/-- Helper: a body run in an active context leaves the context active. -/
theorem run_body_active (body : List AssertCall) :
    ∀ (r : TestResult), ∃ r', (run_body body ⟨some ⟨some r⟩⟩).1 = ⟨some ⟨some r'⟩⟩ := by
  induction body with
  | nil => intro r; exact ⟨r, rfl⟩
  | cons p rest ih =>
    intro r
    simp only [run_body, assertInvoke_active]
    by_cases hp : (assertOutcome p).1 = TestState.PASS
    · simp only [hp]
      simpa using ih ⟨TestState.PASS, (assertOutcome p).2⟩
    · refine ⟨⟨(assertOutcome p).1, (assertOutcome p).2⟩, ?_⟩
      simp [decide_eq_true hp]

/-- Helper: the failed_count of the fuzz loop counts the aborting iterations. -/
theorem fuzz_iterate_count (f : FuzzValue → List AssertCall) (ds : List FuzzValue) :
    ∀ (r : TestResult) (fc : ℕ),
    (fuzz_iterate f ds r fc).2 = fc + ds.countP (iteration_fails f) := by
  induction ds with
  | nil => intro r fc; simp [fuzz_iterate]
  | cons v rest ih =>
    intro r fc
    simp only [fuzz_iterate, run_body_jump_iff]
    by_cases hv : iteration_fails f v = true
    · have hv2 : ((f v).any fun c => (assertOutcome c).1 ≠ TestState.PASS) = true := hv
      rw [if_pos hv2, ih]
      simp [List.countP_cons, hv]
      omega
    · have hv2 : ((f v).any fun c => (assertOutcome c).1 ≠ TestState.PASS) ≠ true := hv
      have hv3 : iteration_fails f v = false := by simpa using hv
      rw [if_neg hv2, ih]
      simp [List.countP_cons, hv3]

/-- C1: the claim says the exit status is nonzero iff some case in some
registered set ended FAIL, regardless of which set holds the failing case.  The
code instead returns runner_done of the registry HEAD set only: with the
failing case in the second set (setB) and the head set (setA) clean, every case
of setB ends FAIL and its failed counter is 1, yet the exit status is 0.  This
contradicts the run_tests header documentation ("0 if all tests pass, 1 if any
test fails"), so it is a bug in runner_done's argument, not a spec error. -/
theorem c1_exit_status_code_bug :
    (run_tests [setA, setB] none []).2.1 = some 0 ∧
    ((run_tests [setA, setB] none []).1.map TestSetM.failed) = [0, 1] ∧
    ((run_tests [setA, setB] none []).1.map (fun s => s.cases.map (fun c => c.result.state)))
      = [[TestState.PASS], [TestState.FAIL]] := by
  refine ⟨rfl, rfl, rfl⟩

/-- C2 counterexample: the claim says the byte dataset is the full range of
byte values, but the byte value 2 is absent from fuzz_byte_values, which has
only five elements. -/
theorem c2_byte_range_counterexample :
    SCHAR_MIN ≤ (2 : ℤ) ∧ (2 : ℤ) ≤ SCHAR_MAX ∧
    FuzzValue.byte 2 ∉ fuzzDataset FuzzType.FUZZ_BYTE ∧
    (fuzzDataset FuzzType.FUZZ_BYTE).length = 5 := by
  refine ⟨by decide, by decide, by decide, by decide⟩

/-- C2 (amended): at FUZZ_INIT the runner selects the fixed literal dataset for
the case's input type: for integers exactly {INT_MIN, INT_MIN+1, -1, 0, 1,
INT_MAX-1, INT_MAX}; for floats the extremes ±FLT_MAX, zeros, ±1, NaN,
±infinity and ±smallest-normal (2^-126, the value of the 1.17549435e-38f
literal); for bytes the five boundary values {SCHAR_MIN, -1, 0, 1, SCHAR_MAX}
rather than the full byte range. -/
theorem c2_datasets_amended :
    fuzzDataset FuzzType.FUZZ_INT =
      [.int (-(2 ^ 31)), .int (-(2 ^ 31) + 1), .int (-1), .int 0, .int 1,
       .int (2 ^ 31 - 2), .int (2 ^ 31 - 1)]
    ∧ fuzzDataset FuzzType.FUZZ_BYTE =
      [.byte (-128), .byte (-1), .byte 0, .byte 1, .byte 127]
    ∧ fuzzDataset FuzzType.FUZZ_FLOAT =
      [.flt .negInf, .flt (.finite (-FLT_MAX)), .flt (.finite (-1)),
       .flt (.finite 0), .flt (.finite 0), .flt (.finite 1),
       .flt (.finite FLT_MAX), .flt .inf, .flt .nan,
       .flt (.finite (1 / 2 ^ 126)), .flt (.finite (-(1 / 2 ^ 126)))] := by
  refine ⟨by decide, by decide, ?_⟩
  show (fuzz_float_values.map FuzzValue.flt) = _
  unfold fuzz_float_values
  rw [min_normal_value]
  simp

/-- C9: floatWithin called with the literal 1.00000001 and bounds 1.0 and 1.0
results in PASS — the value converts to exactly 1.0f, so the delta is 0, within
machine epsilon of float — and called with 2.0 and the same bounds it results
in FAIL with the "Value out of range" message. -/
theorem c9_floatWithin :
    assertOutcome (.floatWithin (toFloat32 (toFloat64 (100000001 / 100000000))) 1 1 none)
      = (TestState.PASS, none)
    ∧ assertOutcome (.floatWithin (toFloat32 (toFloat64 2)) 1 1 none)
      = (TestState.FAIL, some "Value out of range")
    ∧ |toFloat32 (toFloat64 (100000001 / 100000000)) - 1| ≤ FLT_EPSILON := by
  rw [tf64_lit1, tf32_lit1, tf64_two, tf32_two]
  refine ⟨?_, ?_, ?_⟩
  · simp [assertOutcome, assert_float_within]
  · norm_num [assertOutcome, assert_float_within, with_user_msg]
  · norm_num [FLT_EPSILON]

/-- C10: any Assert-interface operation invoked while no test set is current,
or while the current set has no executing case, is a no-op: nothing is written
and no unwind happens, the call returns normally. -/
theorem c10_assert_noop_without_context (call : AssertCall) (ctx : AssertCtx)
    (h : ctx.current_set = none ∨ ctx.current_set = some ⟨none⟩) :
    assertInvoke call ctx = (ctx, false) := by
  obtain ⟨cs⟩ := ctx
  rcases h with h | h <;> simp only at h <;> subst h <;> rfl

/-- C10 witness: the explicit fail assertion, with no current set, returns
normally without touching anything. -/
theorem c10_witness :
    assertInvoke (.fail none) ⟨none⟩ = (⟨none⟩, false) :=
  c10_assert_noop_without_context (.fail none) ⟨none⟩ (Or.inl rfl)

/-- C3: after the body returns, the runner inverts the outcome of a case
registered expect_fail or expect_throw: FAIL becomes PASS with the synthetic
"expected X occurred" message, PASS becomes FAIL with the synthetic "expected X
but passed" message, and SKIP is never inverted.  The hypothesis that a FAIL
outcome carries a message holds for every outcome the assertion library or the
fuzz engine can produce. -/
theorem c3_expectation_inversion (tc : TestCaseM) (set : TestSetM) (t : RunTotals)
    (hmsg : tc.result.state = TestState.FAIL → tc.result.message ≠ none) :
    (tc.expect_fail = true →
        (tc.result.state = .FAIL →
          (process_result tc set t).1.result = ⟨.PASS, some "Expected failure occurred"⟩)
      ∧ (tc.result.state = .PASS →
          (process_result tc set t).1.result = ⟨.FAIL, some "Expected failure but passed"⟩)
      ∧ (tc.result.state = .SKIP → (process_result tc set t).1.result = tc.result))
    ∧ (tc.expect_fail = false → tc.expect_throw = true →
        (tc.result.state = .FAIL →
          (process_result tc set t).1.result = ⟨.PASS, some "Expected throw occurred"⟩)
      ∧ (tc.result.state = .PASS →
          (process_result tc set t).1.result = ⟨.FAIL, some "Expected throw but passed"⟩)
      ∧ (tc.result.state = .SKIP → (process_result tc set t).1.result = tc.result)) := by
  have hpr : (process_result tc set t).1 = invert_expectation tc := by
    unfold process_result
    rcases h : (invert_expectation tc).result.state <;> simp [h]
  constructor
  · intro hef
    refine ⟨?_, ?_, ?_⟩
    · intro hst
      obtain ⟨m, hm⟩ := Option.ne_none_iff_exists'.mp (hmsg hst)
      rw [hpr]
      unfold invert_expectation
      simp [hef, hst, hm]
    · intro hst
      rw [hpr]
      unfold invert_expectation
      simp [hef, hst]
    · intro hst
      rw [hpr]
      unfold invert_expectation
      simp [hef, hst]
  · intro hef het
    refine ⟨?_, ?_, ?_⟩
    · intro hst
      obtain ⟨m, hm⟩ := Option.ne_none_iff_exists'.mp (hmsg hst)
      rw [hpr]
      unfold invert_expectation
      simp [hef, het, hst, hm]
    · intro hst
      rw [hpr]
      unfold invert_expectation
      simp [hef, het, hst]
    · intro hst
      rw [hpr]
      unfold invert_expectation
      simp [hef, het, hst]

/-- C3 witness: an expect_fail case whose body failed no assertion (state PASS)
is inverted to FAIL with message "Expected failure but passed". -/
theorem c3_witness :
    (process_result
        { id := 0, name := "w", func := TestFuncM.test [], expect_fail := true,
          expect_throw := false, fuzz_type := .FUZZ_INT, result := ⟨.PASS, none⟩ }
        setA ⟨0, 0, 0, 0, 0⟩).1.result
      = ⟨.FAIL, some "Expected failure but passed"⟩ :=
  ((c3_expectation_inversion _ _ _ (fun h => absurd h (by decide))).1 rfl).2.1 rfl



/-- C5: every Assert operation funnels through the single set-result primitive:
a PASS outcome continues execution, and the first non-PASS outcome writes its
state and message into the current case and unwinds in a single level back to
the runner — exactly pre.length + 1 assertions execute, so nothing after the
first non-passing assertion runs; a body whose assertions all pass runs to its
end with no unwind. -/
theorem c5_first_failing_assertion :
    (∀ (pre : List AssertCall) (c : AssertCall) (post : List AssertCall) (r : TestResult),
      (∀ p ∈ pre, (assertOutcome p).1 = TestState.PASS) →
      (assertOutcome c).1 ≠ TestState.PASS →
      run_body (pre ++ c :: post) ⟨some ⟨some r⟩⟩ =
        (⟨some ⟨some ⟨(assertOutcome c).1, (assertOutcome c).2⟩⟩⟩, true, pre.length + 1))
    ∧ (∀ (body : List AssertCall) (r : TestResult),
      (∀ p ∈ body, (assertOutcome p).1 = TestState.PASS) →
      (run_body body ⟨some ⟨some r⟩⟩).2 = (false, body.length)) :=
  ⟨fun pre c post r h1 h2 => run_body_first_fail pre c post r h1 h2,
   fun body r h => run_body_all_pass body r h⟩

/-- C5 witness: in a three-assertion body whose second assertion is the
explicit fail, exactly two assertions execute and the recorded result is the
fail outcome. -/
theorem c5_witness :
    run_body [.isTrue true none, .fail none, .isTrue false none] ⟨some ⟨some ⟨.PASS, none⟩⟩⟩
      = (⟨some ⟨some ⟨.FAIL, some "Explicit failure triggered"⟩⟩⟩, true, 2) := by
  have h := c5_first_failing_assertion.1 [.isTrue true none] (.fail none) [.isTrue false none]
    ⟨.PASS, none⟩ (by decide) (by decide)
  simpa [assertOutcome, with_user_msg] using h

/-- C4: each fuzz iteration runs in its own unwind boundary so a failing
iteration is recorded and iteration continues — the aggregate result is decided
by the count of failing iterations over the whole dataset: PASS iff every
iteration passes, otherwise FAIL with the "K of N fuzz iterations passed"
message; over the 7-value integer dataset with exactly one failing iteration
the message is "6 of 7 fuzz iterations passed". -/
theorem c4_fuzz_aggregate (tc : TestCaseM) (f : FuzzValue → List AssertCall) (ds : List FuzzValue) :
    ((execute_fuzzing tc f ds).result.state = TestState.PASS ↔
        ∀ v ∈ ds, iteration_fails f v = false)
    ∧ (ds.countP (iteration_fails f) = 0 →
        (execute_fuzzing tc f ds).result = ⟨.PASS, none⟩)
    ∧ (ds.countP (iteration_fails f) ≠ 0 →
        (execute_fuzzing tc f ds).result =
          ⟨.FAIL, some (toString (ds.length - ds.countP (iteration_fails f)) ++ " of "
            ++ toString ds.length ++ " fuzz iterations passed")⟩)
    ∧ (ds = fuzzDataset .FUZZ_INT → ds.countP (iteration_fails f) = 1 →
        (execute_fuzzing tc f ds).result.message = some "6 of 7 fuzz iterations passed") := by
  have hfc : (fuzz_iterate f ds tc.result 0).2 = ds.countP (iteration_fails f) := by
    simpa using fuzz_iterate_count f ds tc.result 0
  have hzero : ds.countP (iteration_fails f) = 0 →
      (execute_fuzzing tc f ds).result = ⟨.PASS, none⟩ := by
    intro h0
    unfold execute_fuzzing
    simp [hfc, h0]
  have hpos : ds.countP (iteration_fails f) ≠ 0 →
      (execute_fuzzing tc f ds).result =
        ⟨.FAIL, some (toString (ds.length - ds.countP (iteration_fails f)) ++ " of "
          ++ toString ds.length ++ " fuzz iterations passed")⟩ := by
    intro h0
    unfold execute_fuzzing
    simp only [hfc, if_neg h0]
  refine ⟨?_, hzero, hpos, ?_⟩
  · constructor
    · intro hp
      rcases Nat.eq_zero_or_pos (ds.countP (iteration_fails f)) with h0 | h0
      · intro v hv
        have := List.countP_eq_zero.mp h0 v hv
        simpa using this
      · exfalso
        have hres := hpos (Nat.pos_iff_ne_zero.mp h0)
        rw [hres] at hp
        simp at hp
    · intro hall
      have h0 : ds.countP (iteration_fails f) = 0 :=
        List.countP_eq_zero.mpr (fun v hv => by simp [hall v hv])
      rw [hzero h0]
  · intro hds h1
    subst hds
    have hres := hpos (by omega)
    rw [h1] at hres
    rw [hres]
    rfl

/-- C4 witness: a fuzz body failing exactly on input 0 of the integer dataset
yields the "6 of 7 fuzz iterations passed" message. -/
theorem c4_witness :
    (execute_fuzzing tc_passing (fun v => [.isTrue (decide (v ≠ FuzzValue.int 0)) none])
        (fuzzDataset .FUZZ_INT)).result.message = some "6 of 7 fuzz iterations passed" :=
  (c4_fuzz_aggregate _ _ _).2.2.2 rfl (by decide)

/-- C6: in the per-case event sequence of run_case, result processing happens
after EXECUTE_TEST completes (and after END_TEST) and before the per-case
teardown runs, the teardown event is present for every case outcome whenever
the set has a teardown, and the case counter is incremented during that
processing. -/
theorem c6_processing_between_execute_and_teardown (set : TestSetM) (t : RunTotals) (tc : TestCaseM)
    (h : set.has_teardown = true) :
    [Event.execute_test_ev tc.name, Event.end_test_ev tc.name, Event.process_result_ev tc.name,
      Event.teardown_test_ev tc.name].Sublist (run_case set t tc).2.2.2
    ∧ (run_case set t tc).2.2.1.tc_total = t.tc_total + 1 := by
  constructor
  · unfold run_case
    by_cases hs : set.has_setup <;> simp [hs, h] <;>
      first
      | exact List.Sublist.cons _ (List.Sublist.cons _ (List.Sublist.cons _
          (List.Sublist.cons₂ _ (List.Sublist.cons₂ _ (List.Sublist.cons₂ _
            (List.Sublist.cons₂ _ (List.nil_sublist _)))))))
      | exact List.Sublist.cons _ (List.Sublist.cons _
          (List.Sublist.cons₂ _ (List.Sublist.cons₂ _ (List.Sublist.cons₂ _
            (List.Sublist.cons₂ _ (List.nil_sublist _))))))
  · unfold run_case process_result
    rcases hst : (invert_expectation (execute_test tc)).result.state <;> simp [hst]

/-- C6 witness: for the concrete failing case in a set with a teardown, the
four events appear in order and the counter advanced. -/
theorem c6_witness :
    [Event.execute_test_ev "breaks", Event.end_test_ev "breaks",
      Event.process_result_ev "breaks", Event.teardown_test_ev "breaks"].Sublist
        (run_case setA ⟨0, 0, 0, 0, 0⟩ tc_failing).2.2.2
    ∧ (run_case setA ⟨0, 0, 0, 0, 0⟩ tc_failing).2.2.1.tc_total = 1 :=
  c6_processing_between_execute_and_teardown setA ⟨0, 0, 0, 0, 0⟩ tc_failing rfl



/-- Helper: applying the default back-fill twice equals applying it once. -/
theorem backfill_idem (h : HooksM) :
    backfill_defaults (backfill_defaults h) = backfill_defaults h := by
  cases h with
  | mk n bs as bt at' ost oet oe otr oss oma omf odl =>
    unfold backfill_defaults
    rcases bt with _ | c1 <;> rcases at' with _ | c2 <;> rcases ost with _ | c3 <;>
      rcases oet with _ | c4 <;> rcases oe with _ | c5 <;> rcases otr with _ | c6 <;> rfl

/-- Helper: one hook-resolution step commutes with back-filling every bundle
in its inputs. -/
theorem resolve_step_map (th : Option HooksM) (reg : List HooksM) (acc : Option HooksM)
    (s : TestSetM) :
    resolve_hooks_step (th.map backfill_defaults) (reg.map backfill_defaults)
        (acc.map backfill_defaults) { s with hooks := s.hooks.map backfill_defaults }
      = (resolve_hooks_step th reg acc s).map backfill_defaults := by
  rcases th with _ | h1 <;> rcases hs : s.hooks with _ | h2 <;>
    rcases reg with _ | ⟨h3, reg2⟩ <;> simp [resolve_hooks_step, hs]

/-- Helper: the whole resolution fold commutes with back-filling every bundle
in its inputs. -/
theorem resolve_fold_map (th : Option HooksM) (reg : List HooksM) (sets : List TestSetM) :
    ∀ (acc : Option HooksM),
    ((sets.map fun s => { s with hooks := s.hooks.map backfill_defaults }).foldl
        (resolve_hooks_step (th.map backfill_defaults) (reg.map backfill_defaults))
        (acc.map backfill_defaults))
      = (sets.foldl (resolve_hooks_step th reg) acc).map backfill_defaults := by
  induction sets with
  | nil => intro acc; rfl
  | cons s rest ih =>
    intro acc
    simp only [List.map_cons, List.foldl_cons]
    rw [resolve_step_map]
    exact ih _

/-- C7 (amended): hook-bundle resolution at run initialization is idempotent —
re-running it for the same run, even after the first run back-filled every
bundle in place, yields the same bundle, and the back-fill never overwrites a
slot that is already set.  However only the six slots before_test, after_test,
on_start_test, on_end_test, on_error, on_test_result are back-filled with
built-in defaults; name, before_set, after_set, on_set_summary,
on_memory_alloc, on_memory_free and on_debug_log are left untouched, so their
call sites do null-check. -/
theorem c7_hook_resolution (sets : List TestSetM) (th : Option HooksM) (reg : List HooksM) (h : HooksM) :
    runner_init (sets.map fun s => { s with hooks := s.hooks.map backfill_defaults })
        (th.map backfill_defaults) (reg.map backfill_defaults)
      = runner_init sets th reg
    ∧ backfill_defaults (backfill_defaults h) = backfill_defaults h
    ∧ ((backfill_defaults h).before_test ≠ none ∧ (backfill_defaults h).after_test ≠ none
       ∧ (backfill_defaults h).on_start_test ≠ none ∧ (backfill_defaults h).on_end_test ≠ none
       ∧ (backfill_defaults h).on_error ≠ none ∧ (backfill_defaults h).on_test_result ≠ none)
    ∧ (∀ c, h.before_test = some c → (backfill_defaults h).before_test = some c)
    ∧ (∀ c, h.after_test = some c → (backfill_defaults h).after_test = some c)
    ∧ (∀ c, h.on_start_test = some c → (backfill_defaults h).on_start_test = some c)
    ∧ (∀ c, h.on_end_test = some c → (backfill_defaults h).on_end_test = some c)
    ∧ (∀ c, h.on_error = some c → (backfill_defaults h).on_error = some c)
    ∧ (∀ c, h.on_test_result = some c → (backfill_defaults h).on_test_result = some c)
    ∧ ((backfill_defaults h).name = h.name ∧ (backfill_defaults h).before_set = h.before_set
       ∧ (backfill_defaults h).after_set = h.after_set
       ∧ (backfill_defaults h).on_set_summary = h.on_set_summary
       ∧ (backfill_defaults h).on_memory_alloc = h.on_memory_alloc
       ∧ (backfill_defaults h).on_memory_free = h.on_memory_free
       ∧ (backfill_defaults h).on_debug_log = h.on_debug_log) := by
  refine ⟨?_, backfill_idem h, ?_, ?_, ?_, ?_, ?_, ?_, ?_, ?_⟩
  · unfold runner_init
    have h2 := resolve_fold_map th reg sets none
    simp only [Option.map_none'] at h2
    rw [h2]
    rcases hf : sets.foldl (resolve_hooks_step th reg) none with _ | x
    · rfl
    · simp [backfill_idem x]
  · refine ⟨?_, ?_, ?_, ?_, ?_, ?_⟩ <;>
      · rcases hx : h.before_test with _ | c <;> rcases hy : h.after_test with _ | c2 <;>
          rcases hz : h.on_start_test with _ | c3 <;> rcases hw : h.on_end_test with _ | c4 <;>
          rcases hv : h.on_error with _ | c5 <;> rcases hu : h.on_test_result with _ | c6 <;>
          simp [backfill_defaults, hx, hy, hz, hw, hv, hu]
  · intro c hc; simp [backfill_defaults, hc]
  · intro c hc; simp [backfill_defaults, hc]
  · intro c hc; simp [backfill_defaults, hc]
  · intro c hc; simp [backfill_defaults, hc]
  · intro c hc; simp [backfill_defaults, hc]
  · intro c hc; simp [backfill_defaults, hc]
  · refine ⟨?_, ?_, ?_, ?_, ?_, ?_, ?_⟩ <;> simp [backfill_defaults]

/-- C7 counterexample: the claim says every unset callback slot is back-filled
with its built-in default so call sites need no null-checks; resolving a run
over a set bound to an all-unset bundle yields a bundle whose before_set and
on_set_summary slots are still unset. -/
theorem c7_counterexample :
    (runner_init [setH] none []).map HooksM.before_set = some none ∧
    (runner_init [setH] none []).map HooksM.on_set_summary = some none ∧
    runner_init [setH] none [] ≠ none := by
  refine ⟨rfl, rfl, by decide⟩

/-- C7 witness: a slot that is already set (a user callback) survives the
back-fill unchanged. -/
theorem c7_witness :
    (backfill_defaults { hooks_all_unset with before_test := some (Callback.user 5) }).before_test
      = some (Callback.user 5) :=
  (c7_hook_resolution [] none [] _).2.2.2.1 (Callback.user 5) rfl

/-- Helper: appending a freshly allocated case preserves the count/length
invariant, keeps all case ids distinct, and keeps them below the fresh-id
counter. -/
theorem append_case_invariant (mk : ℕ → TestCaseM) (hmk : ∀ j, (mk j).id = j) (st : RegState)
    (h1 : ∀ s ∈ st.sets, s.count = s.cases.length)
    (h2 : (all_case_ids st.sets).Nodup)
    (h3 : ∀ i ∈ all_case_ids st.sets, i < st.next_id) :
    (∀ s ∈ (append_case mk st).sets, s.count = s.cases.length)
    ∧ (all_case_ids (append_case mk st).sets).Nodup
    ∧ (∀ i ∈ all_case_ids (append_case mk st).sets, i < (append_case mk st).next_id) := by
  rcases hss : st.sets with _ | ⟨s, rest⟩
  · unfold append_case testset_reg
    simp [hss, hmk, all_case_ids]
  · unfold append_case
    simp only [hss, List.isEmpty_cons, if_neg Bool.false_ne_true]
    rw [hss] at h1 h2 h3
    refine ⟨?_, ?_, ?_⟩
    · intro s2 hs2
      rcases List.mem_cons.mp hs2 with rfl | hs3
      · simp [h1 s (List.mem_cons_self s rest)]
      · exact h1 s2 (List.mem_cons_of_mem s hs3)
    · simp only [all_case_ids, List.map_append, List.map_cons, List.map_nil, hmk]
      rw [List.append_assoc, List.singleton_append]
      rw [List.nodup_middle]
      refine List.nodup_cons.mpr ⟨?_, ?_⟩
      · intro hmem
        exact absurd (h3 st.next_id (by simpa [all_case_ids] using hmem)) (lt_irrefl _)
      · simpa [all_case_ids] using h2
    · intro i hi
      simp only [all_case_ids, List.map_append, List.map_cons, List.map_nil, hmk] at hi
      rw [List.append_assoc, List.singleton_append] at hi
      rcases List.mem_append.mp hi with hA | hB
      · exact lt_trans (h3 i (by simp [all_case_ids, hA])) (Nat.lt_succ_self _)
      · rcases List.mem_cons.mp hB with rfl | hB2
        · exact Nat.lt_succ_self _
        · exact lt_trans (h3 i (by simp [all_case_ids, hB2])) (Nat.lt_succ_self _)

/-- Helper: every registration call preserves the registry invariants. -/
theorem applyRegOp_invariant (st : RegState) (op : RegOp)
    (h1 : ∀ s ∈ st.sets, s.count = s.cases.length)
    (h2 : (all_case_ids st.sets).Nodup)
    (h3 : ∀ i ∈ all_case_ids st.sets, i < st.next_id) :
    (∀ s ∈ (applyRegOp st op).sets, s.count = s.cases.length)
    ∧ (all_case_ids (applyRegOp st op).sets).Nodup
    ∧ (∀ i ∈ all_case_ids (applyRegOp st op).sets, i < (applyRegOp st op).next_id) := by
  cases op with
  | testset name hc =>
    unfold applyRegOp testset_reg
    refine ⟨?_, ?_, ?_⟩
    · intro s hs
      rcases List.mem_cons.mp hs with rfl | hs2
      · rfl
      · exact h1 s hs2
    · simpa [all_case_ids] using h2
    · intro i hi
      exact h3 i (by simpa [all_case_ids] using hi)
  | testcase name body =>
    exact append_case_invariant _ (fun j => rfl) st h1 h2 h3
  | fail_testcase name body =>
    exact append_case_invariant _ (fun j => rfl) st h1 h2 h3
  | testcase_throws name body =>
    exact append_case_invariant _ (fun j => rfl) st h1 h2 h3
  | fuzz_testcase name body type =>
    exact append_case_invariant _ (fun j => rfl) st h1 h2 h3
  | setup_testcase =>
    unfold applyRegOp
    rcases hss : st.sets with _ | ⟨s, rest⟩
    · exact ⟨by simpa [hss] using h1, by simpa [hss] using h2, by simpa [hss] using h3⟩
    · rw [hss] at h1 h2 h3
      refine ⟨?_, ?_, ?_⟩
      · intro s2 hs2
        rcases List.mem_cons.mp hs2 with rfl | hs3
        · exact h1 s (List.mem_cons_self s rest)
        · exact h1 s2 (List.mem_cons_of_mem s hs3)
      · simpa [all_case_ids] using h2
      · intro i hi
        exact h3 i (by simpa [all_case_ids] using hi)
  | teardown_testcase =>
    unfold applyRegOp
    rcases hss : st.sets with _ | ⟨s, rest⟩
    · exact ⟨by simpa [hss] using h1, by simpa [hss] using h2, by simpa [hss] using h3⟩
    · rw [hss] at h1 h2 h3
      refine ⟨?_, ?_, ?_⟩
      · intro s2 hs2
        rcases List.mem_cons.mp hs2 with rfl | hs3
        · exact h1 s (List.mem_cons_self s rest)
        · exact h1 s2 (List.mem_cons_of_mem s hs3)
      · simpa [all_case_ids] using h2
      · intro i hi
        exact h3 i (by simpa [all_case_ids] using hi)





/-- Helper: the registry invariants hold after any sequence of registration
calls from an invariant-satisfying state. -/
theorem register_fold_invariant (ops : List RegOp) : ∀ (st : RegState),
    (∀ s ∈ st.sets, s.count = s.cases.length) →
    (all_case_ids st.sets).Nodup →
    (∀ i ∈ all_case_ids st.sets, i < st.next_id) →
    (∀ s ∈ (ops.foldl applyRegOp st).sets, s.count = s.cases.length)
    ∧ (all_case_ids (ops.foldl applyRegOp st).sets).Nodup
    ∧ (∀ i ∈ all_case_ids (ops.foldl applyRegOp st).sets, i < (ops.foldl applyRegOp st).next_id) := by
  induction ops with
  | nil => intro st a b c; exact ⟨a, b, c⟩
  | cons op rest ih =>
    intro st a b c
    obtain ⟨a2, b2, c2⟩ := applyRegOp_invariant st op a b c
    exact ih _ a2 b2 c2

/-- Helper: result processing changes only the pass/fail/skip counters of a
set, never its count or its case list. -/
theorem process_result_set_shape (tc : TestCaseM) (set : TestSetM) (t : RunTotals) :
    (process_result tc set t).2.1.count = set.count
    ∧ (process_result tc set t).2.1.cases = set.cases := by
  unfold process_result
  rcases h : (invert_expectation tc).result.state <;> simp [h]

/-- Helper: running the cases of a set yields as many executed cases as it
was given and leaves the set count and case list untouched. -/
theorem run_cases_shape (cs : List TestCaseM) : ∀ (set : TestSetM) (t : RunTotals),
    (run_cases set t cs).1.length = cs.length
    ∧ (run_cases set t cs).2.1.count = set.count
    ∧ (run_cases set t cs).2.1.cases = set.cases := by
  induction cs with
  | nil => intro set t; exact ⟨rfl, rfl, rfl⟩
  | cons tc rest ih =>
    intro set t
    obtain ⟨hc, hcs⟩ := process_result_set_shape (execute_test tc) set t
    obtain ⟨l2, c2, cs2⟩ := ih (run_case set t tc).2.1 (run_case set t tc).2.2.1
    have hrc : (run_case set t tc).2.1 = (process_result (execute_test tc) set t).2.1 := rfl
    refine ⟨?_, ?_, ?_⟩
    · simp only [run_cases, List.length_cons, l2]
    · simp only [run_cases]
      rw [c2, hrc]
      exact hc
    · simp only [run_cases]
      rw [cs2, hrc]
      exact hcs

/-- Helper: running one set preserves its count and its number of cases. -/
theorem run_set_shape (t : RunTotals) (set : TestSetM) :
    (run_set t set).1.count = set.count ∧ (run_set t set).1.cases.length = set.cases.length := by
  obtain ⟨l, c, _⟩ := run_cases_shape set.cases set
    { t with tc_total := 0, tc_passed := 0, tc_failed := 0, tc_skipped := 0 }
  exact ⟨c, by simpa [run_set] using l⟩

/-- Helper: a whole run preserves, per set, the count field and the case-list
length. -/
theorem run_sets_shape (sets : List TestSetM) : ∀ (t : RunTotals),
    (run_sets t sets).1.map (fun s => (s.count, s.cases.length))
      = sets.map (fun s => (s.count, s.cases.length)) := by
  induction sets with
  | nil => intro t; rfl
  | cons s rest ih =>
    intro t
    simp only [run_sets, List.map_cons]
    obtain ⟨hc, hl⟩ := run_set_shape t s
    rw [hc, hl, ih]

/-- C8: for any sequence of registration calls from program start, every
registered set satisfies count = length of its case sequence; the ids (malloc
identities) of all registered cases are pairwise distinct across all sets, so
every case belongs to exactly one set; and a run preserves every set's count
and case-list length, so the invariant also holds before and after a run. -/
theorem c8_registration_invariants (ops : List RegOp) :
    (∀ i (hi : i < (register_all ops).sets.length),
        ((register_all ops).sets.get ⟨i, hi⟩).count
          = ((register_all ops).sets.get ⟨i, hi⟩).cases.length)
    ∧ (all_case_ids (register_all ops).sets).Nodup
    ∧ (∀ (th : Option HooksM) (reg : List HooksM),
        (run_tests (register_all ops).sets th reg).1.map (fun s => (s.count, s.cases.length))
          = (register_all ops).sets.map (fun s => (s.count, s.cases.length))) := by
  obtain ⟨a, b, _c⟩ := register_fold_invariant ops ⟨[], 0⟩
    (by intro s hs; cases hs) (by simp [all_case_ids]) (by intro i hi; simp [all_case_ids] at hi)
  refine ⟨?_, b, ?_⟩
  · intro i hi
    exact a _ (List.get_mem _ i hi)
  · intro th reg
    exact run_sets_shape (register_all ops).sets ⟨0, 0, 0, 0, 0⟩

/-- C8 witness: the sample registration sequence yields a head set whose
count equals its number of cases. -/
theorem c8_witness :
    ((register_all sample_ops).sets.get ⟨0, by decide⟩).count
      = ((register_all sample_ops).sets.get ⟨0, by decide⟩).cases.length :=
  (c8_registration_invariants sample_ops).1 0 (by decide)

end Sigtest
